import Mathlib

/-!
Verification development for the PPL interpreter (single C++ source file,
`main.cpp`).  The interpreter's data model is shallowly embedded: list nodes
live in an arena heap (`Heap`, a list of `Node`s addressed by index), which
makes the C++ `shared_ptr` structural sharing and deep-copy behaviour
directly observable.  Pointer-chasing loops of the source are embedded as
fuel-indexed structural recursions; a fuel of `heap.length` is always
sufficient because every node's `next` pointer and every nested list handle
refer to an earlier-allocated node (`heapWF` below), mirroring the fact that
the C++ program never creates a cyclic list.
-/

namespace PPL

/-- A runtime value: `Int(long long)` or a list handle (`ListPtr`); `none`
is the null pointer, i.e. the empty list.  Mirrors `struct Value`. -/
inductive Val where
  | int (i : Int)
  | list (h : Option Nat)
deriving DecidableEq

/-- A heap node, mirroring `struct ListNode { Value v; ListPtr next; }`. -/
structure Node where
  v : Val
  next : Option Nat
deriving DecidableEq

/-- The arena of allocated list nodes; an address is an index. -/
abbrev Heap := List Node

/-- Allocate a node at the end of the arena, returning its address. -/
def alloc (heap : Heap) (nd : Node) : Heap × Nat := (heap ++ [nd], heap.length)

/-- Total read of a node; the out-of-range default is unreachable for the
handles arising during execution (the C++ code dereferences a non-null
pointer here). -/
def nodeAt (heap : Heap) (i : Nat) : Node := (heap[i]?).getD ⟨Val.int 0, none⟩

/-- `Value::deep_copy` for the chain starting at a handle: copies the chain
node by node, deep-copying nested list elements, allocating the copy in the
arena (tail node first, so every new node only points at already-allocated
nodes).  The fuel bounds pointer chasing; `heap.length` always suffices for
well-formed heaps. -/
def deepCopyChain : Nat → Heap → Option Nat → Heap × Option Nat
  | _, heap, none => (heap, none)
  | 0, heap, some _ => (heap, none)
  | fuel + 1, heap, some i =>
    match heap[i]? with
    | none => (heap, none)
    | some nd =>
      let r1 := deepCopyChain fuel heap nd.next
      match nd.v with
      | Val.int k => (r1.1 ++ [⟨Val.int k, r1.2⟩], some r1.1.length)
      | Val.list h2 =>
        let r2 := deepCopyChain fuel r1.1 h2
        (r2.1 ++ [⟨Val.list r2.2, r1.2⟩], some r2.1.length)

/-- `Value::deep_copy`: an `Int` is a value copy, a list gets a fresh,
non-aliased chain of nodes. -/
def deepCopyVal (fuel : Nat) (heap : Heap) : Val → Heap × Val
  | Val.int i => (heap, Val.int i)
  | Val.list h =>
    let r := deepCopyChain fuel heap h
    (r.1, Val.list r.2)

/-- Pure (heap-free) values, used to state what a handle denotes. -/
inductive PVal where
  | int (i : Int)
  | list (elems : List PVal)

/-- Read the chain starting at a handle into a pure list of values. -/
def chainP : Nat → Heap → Option Nat → List PVal
  | _, _, none => []
  | 0, _, some _ => []
  | fuel + 1, heap, some i =>
    match heap[i]? with
    | none => []
    | some nd =>
      (match nd.v with
       | Val.int k => PVal.int k
       | Val.list h2 => PVal.list (chainP fuel heap h2)) :: chainP fuel heap nd.next

/-- Read a value into a pure value. -/
def valP (fuel : Nat) (heap : Heap) : Val → PVal
  | Val.int k => PVal.int k
  | Val.list h => PVal.list (chainP fuel heap h)

/-- The element renderings produced by the loop in `list_to_string`
(each element rendered via `value_to_string`). -/
def listItems : Nat → Heap → Option Nat → List String
  | _, _, none => []
  | 0, _, some _ => []
  | fuel + 1, heap, some i =>
    match heap[i]? with
    | none => []
    | some nd =>
      (match nd.v with
       | Val.int k => toString k
       | Val.list h2 => "[" ++ String.intercalate ", " (listItems fuel heap h2) ++ "]")
        :: listItems fuel heap nd.next

/-- `list_to_string`: brackets around the comma-space separated elements;
a null head yields the same "[]" the C++ early return produces. -/
def list_to_string (fuel : Nat) (heap : Heap) (h : Option Nat) : String :=
  "[" ++ String.intercalate ", " (listItems fuel heap h) ++ "]"

/-- `value_to_string`: decimal text for ints, `list_to_string` for lists. -/
def value_to_string (fuel : Nat) (heap : Heap) : Val → String
  | Val.int i => toString i
  | Val.list h => list_to_string fuel heap h

mutual
/-- Spec-side rendering of a pure value (the `render` rules of the spec):
decimal text for integers, bracketed comma-space separated recursive
rendering for lists. -/
def renderP : PVal → String
  | PVal.int i => toString i
  | PVal.list es => "[" ++ String.intercalate ", " (renderL es) ++ "]"
def renderL : List PVal → List String
  | [] => []
  | e :: es => renderP e :: renderL es
end

/-- The environment: identifier to value, mirroring `map<string, Value>`.
Keys are unique in every environment the interpreter builds. -/
abbrev Env := List (String × Val)

/-- `Env::get` / `Env::get_const` (lookup). -/
def envGet : Env → String → Option Val
  | [], _ => none
  | (k, v) :: r, id => if k == id then some v else envGet r id

/-- `Env::exists`. -/
def envExists (e : Env) (id : String) : Bool := (envGet e id).isSome

/-- `Env::set` / `table[id] = v`: overwrite or insert. -/
def envSet : Env → String → Val → Env
  | [], id, v => [(id, v)]
  | (k, w) :: r, id, v => if k == id then (k, v) :: r else (k, w) :: envSet r id v

/-- The declared identifiers. -/
def envKeys (e : Env) : List String := e.map Prod.fst

/-- Two's-complement wraparound of the host 64-bit integer type. -/
def wrap64 (x : Int) : Int := (x + 2 ^ 63) % 2 ^ 64 - 2 ^ 63

/-- Two's-complement wraparound of the host 32-bit `int` (the cast
`(int)to_int_const(...)` in the `IF` branch of `parse_line`). -/
def wrap32 (x : Int) : Int := (x + 2 ^ 31) % 2 ^ 32 - 2 ^ 31

/-- The spec's classification of the runtime error thrown at each site. -/
inductive ErrCat where
  | alreadyDeclared
  | undefined
  | notAList
  | emptyList
  | typeMismatch
  | jumpOutOfRange
deriving DecidableEq

/-- A runtime error: the line number of the offending instruction, its
category, and the reason text after the "Line n: " of the C++ message. -/
structure RErr where
  line : Nat
  cat : ErrCat
  reason : String
deriving DecidableEq

/-- The full `what()` text of the thrown `runtime_error`. -/
def errMsg (e : RErr) : String := "Line " ++ toString e.line ++ ": " ++ e.reason

/-- One opcode per concrete `Instr_*` class (plus the loader's NOP for
blank lines). -/
inductive Op where
  | INTEGER (id : String)
  | LIST (id : String)
  | MERGE (src dst : String)
  | COPY (src dst : String)
  | HEAD (listid id : String)
  | TAIL (src dst : String)
  | ASSIGN (id : String) (val : Int)
  | CHS (id : String)
  | ADD (a b : String)
  | IF (id : String) (target : Int)
  | HLT
  | NOP
deriving DecidableEq

/-- An instruction: its originating source line number and opcode. -/
structure Instruction where
  lineNo : Nat
  op : Op
deriving DecidableEq

/-- The interpreter state threaded through execution: the single global
environment plus the node arena. -/
structure State where
  env : Env
  heap : Heap
deriving DecidableEq

/-- The `IF` condition: `Int(0)` or the null list handle (empty list). -/
def falsy : Val → Bool
  | Val.int x => x == 0
  | Val.list h => h == none

/-- `Instruction::execute`: returns the state after the instruction (the
environment is mutated in place in C++, so the state is returned on the
error path too) and either a runtime error or the next 1-based line number
(`-1` encodes termination by `HLT`, as in the source). -/
def execute (ins : Instruction) (s : State) (pc : Int) (progLen : Nat) :
    State × Except RErr Int :=
  match ins.op with
  | Op.INTEGER id =>
    if envExists s.env id then
      (s, Except.error ⟨ins.lineNo, ErrCat.alreadyDeclared,
            "Identifier already declared: " ++ id⟩)
    else ({ s with env := envSet s.env id (Val.int 0) }, Except.ok (pc + 1))
  | Op.LIST id =>
    if envExists s.env id then
      (s, Except.error ⟨ins.lineNo, ErrCat.alreadyDeclared,
            "Identifier already declared: " ++ id⟩)
    else ({ s with env := envSet s.env id (Val.list none) }, Except.ok (pc + 1))
  | Op.MERGE src dst =>
    match envGet s.env src with
    | none => (s, Except.error ⟨ins.lineNo, ErrCat.undefined,
                  "Undefined identifier: " ++ src⟩)
    | some vfrom =>
      match envGet s.env dst with
      | none => (s, Except.error ⟨ins.lineNo, ErrCat.undefined,
                    "Undefined list identifier: " ++ dst⟩)
      | some target =>
        -- the deep copy of `src` happens before the target type check
        let r := deepCopyVal s.heap.length s.heap vfrom
        match target with
        | Val.int _ =>
          ({ s with heap := r.1 },
           Except.error ⟨ins.lineNo, ErrCat.notAList,
             "MERGE target is not a list: " ++ dst⟩)
        | Val.list old =>
          ({ env := envSet s.env dst (Val.list (some r.1.length)),
             heap := r.1 ++ [⟨r.2, old⟩] }, Except.ok (pc + 1))
  | Op.COPY src dst =>
    match envGet s.env src with
    | none => (s, Except.error ⟨ins.lineNo, ErrCat.undefined,
                  "Undefined source: " ++ src⟩)
    | some v =>
      match v with
      | Val.int _ => (s, Except.error ⟨ins.lineNo, ErrCat.notAList,
                        "COPY source is not a list: " ++ src⟩)
      | Val.list h =>
        let r := deepCopyVal s.heap.length s.heap (Val.list h)
        ({ env := envSet s.env dst r.2, heap := r.1 }, Except.ok (pc + 1))
  | Op.HEAD listid id =>
    match envGet s.env listid with
    | none => (s, Except.error ⟨ins.lineNo, ErrCat.undefined,
                  "Undefined list: " ++ listid⟩)
    | some lv =>
      match lv with
      | Val.int _ => (s, Except.error ⟨ins.lineNo, ErrCat.notAList,
                        "HEAD target not a list: " ++ listid⟩)
      | Val.list none => (s, Except.error ⟨ins.lineNo, ErrCat.emptyList,
                            "HEAD on empty list: " ++ listid⟩)
      | Val.list (some i) =>
        let r := deepCopyVal s.heap.length s.heap (nodeAt s.heap i).v
        ({ env := envSet s.env id r.2, heap := r.1 }, Except.ok (pc + 1))
  | Op.TAIL src dst =>
    match envGet s.env src with
    | none => (s, Except.error ⟨ins.lineNo, ErrCat.undefined,
                  "Undefined list: " ++ src⟩)
    | some sv =>
      match sv with
      | Val.int _ => (s, Except.error ⟨ins.lineNo, ErrCat.notAList,
                        "TAIL source not a list: " ++ src⟩)
      | Val.list none =>
        ({ s with env := envSet s.env dst (Val.list none) }, Except.ok (pc + 1))
      | Val.list (some i) =>
        let r := deepCopyChain s.heap.length s.heap (nodeAt s.heap i).next
        ({ env := envSet s.env dst (Val.list r.2), heap := r.1 },
         Except.ok (pc + 1))
  | Op.ASSIGN id k =>
    match envGet s.env id with
    | some (Val.int _) =>
      ({ s with env := envSet s.env id (Val.int k) }, Except.ok (pc + 1))
    | some (Val.list _) =>
      (s, Except.error ⟨ins.lineNo, ErrCat.typeMismatch,
            "ASSIGN to non-int: " ++ id⟩)
    | none =>
      ({ s with env := envSet s.env id (Val.int k) }, Except.ok (pc + 1))
  | Op.CHS id =>
    match envGet s.env id with
    | none => (s, Except.error ⟨ins.lineNo, ErrCat.undefined,
                  "CHS undefined id: " ++ id⟩)
    | some (Val.list _) => (s, Except.error ⟨ins.lineNo, ErrCat.typeMismatch,
                              "CHS on non-int: " ++ id⟩)
    | some (Val.int x) =>
      ({ s with env := envSet s.env id (Val.int (wrap64 (-x))) },
       Except.ok (pc + 1))
  | Op.ADD a b =>
    match envGet s.env a with
    | none => (s, Except.error ⟨ins.lineNo, ErrCat.undefined,
                  "ADD undefined id: " ++ a⟩)
    | some va =>
      match envGet s.env b with
      | none => (s, Except.error ⟨ins.lineNo, ErrCat.undefined,
                    "ADD undefined id: " ++ b⟩)
      | some vb =>
        match va, vb with
        | Val.int x, Val.int y =>
          ({ s with env := envSet s.env a (Val.int (wrap64 (x + y))) },
           Except.ok (pc + 1))
        | _, _ => (s, Except.error ⟨ins.lineNo, ErrCat.typeMismatch,
                      "ADD type error"⟩)
  | Op.IF id target =>
    match envGet s.env id with
    | none => (s, Except.error ⟨ins.lineNo, ErrCat.undefined,
                  "IF undefined id: " ++ id⟩)
    | some v =>
      if falsy v then
        if target < 1 ∨ target > (progLen : Int) then
          (s, Except.error ⟨ins.lineNo, ErrCat.jumpOutOfRange,
                "IF jump out of range: " ++ toString target⟩)
        else (s, Except.ok target)
      else (s, Except.ok (pc + 1))
  | Op.HLT => (s, Except.ok (-1))
  | Op.NOP => (s, Except.ok (pc + 1))

/-- C-locale `isalpha` (ASCII letters). -/
def cIsAlpha (c : Char) : Bool :=
  (65 ≤ c.toNat && c.toNat ≤ 90) || (97 ≤ c.toNat && c.toNat ≤ 122)

/-- C-locale `isdigit` (ASCII digits). -/
def cIsDigit (c : Char) : Bool := 48 ≤ c.toNat && c.toNat ≤ 57

/-- C-locale `isalnum`. -/
def cIsAlnum (c : Char) : Bool := cIsAlpha c || cIsDigit c

/-- C-locale `isspace`, the delimiter set of `istringstream >>`. -/
def cIsSpace (c : Char) : Bool :=
  c == ' ' || c == '\t' || c == '\n' || c == '\r' || c.toNat == 11 || c.toNat == 12

/-- `is_identifier`: nonempty, first char a letter or underscore, every
char alphanumeric or underscore. -/
def is_identifier (s : String) : Bool :=
  match s.data with
  | [] => false
  | c :: _ =>
    (cIsAlpha c || c == '_') && s.data.all (fun d => cIsAlnum d || d == '_')

/-- Worker for `tokenize`: split on whitespace runs, accumulator holds the
current word reversed. -/
def tokenizeChars : List Char → List Char → List String
  | [], [] => []
  | [], acc => [String.mk acc.reverse]
  | c :: cs, acc =>
    if cIsSpace c then
      match acc with
      | [] => tokenizeChars cs []
      | _ => String.mk acc.reverse :: tokenizeChars cs []
    else tokenizeChars cs (c :: acc)

/-- `tokenize`: whitespace-separated words of a line. -/
def tokenize (line : String) : List String := tokenizeChars line.data []

/-- Decimal value of a digit run (most significant first). -/
def digitsVal : List Char → Nat → Nat
  | [], acc => acc
  | c :: cs, acc => digitsVal cs (acc * 10 + (c.toNat - 48))

/-- `to_int_const`: `stoll(s, &idx, 10)` with the `ok = (idx == s.size())`
check and the catch of out-of-range / no-digit exceptions — `none` is
`ok = false`.  A token has an optional single sign then digits; all
characters must be consumed and the value must fit in a signed 64-bit
integer. -/
def to_int_const (s : String) : Option Int :=
  let p : Int × List Char :=
    match s.data with
    | '-' :: r => (-1, r)
    | '+' :: r => (1, r)
    | r => (1, r)
  let digs := p.2.takeWhile cIsDigit
  let rest := p.2.drop digs.length
  if digs.isEmpty then none
  else if !rest.isEmpty then none
  else
    let v : Int := p.1 * (digitsVal digs 0 : Nat)
    if v < -(2 ^ 63) ∨ v > 2 ^ 63 - 1 then none else some v

/-- A parse error: the offending line number and the reason after the
"Line n: " of the C++ message. -/
structure PErr where
  line : Nat
  msg : String
deriving DecidableEq

/-- `parse_line`: one instruction per line; `none` is the blank-line
`nullptr`.  Only the `INTEGER` and `LIST` branches validate their
identifier operand. -/
def parse_line (line : String) (lineno : Nat) : Except PErr (Option Op) :=
  match tokenize line with
  | [] => Except.ok none
  | op :: args =>
    if op == "INTEGER" then
      match args with
      | [a] =>
        if is_identifier a then Except.ok (some (Op.INTEGER a))
        else Except.error ⟨lineno, "invalid identifier: " ++ a⟩
      | _ => Except.error ⟨lineno, "INTEGER requires exactly one argument"⟩
    else if op == "LIST" then
      match args with
      | [a] =>
        if is_identifier a then Except.ok (some (Op.LIST a))
        else Except.error ⟨lineno, "invalid identifier: " ++ a⟩
      | _ => Except.error ⟨lineno, "LIST requires exactly one argument"⟩
    else if op == "MERGE" then
      match args with
      | [a, b] => Except.ok (some (Op.MERGE a b))
      | _ => Except.error ⟨lineno, "MERGE requires two arguments"⟩
    else if op == "COPY" then
      match args with
      | [a, b] => Except.ok (some (Op.COPY a b))
      | _ => Except.error ⟨lineno, "COPY requires two arguments"⟩
    else if op == "HEAD" then
      match args with
      | [a, b] => Except.ok (some (Op.HEAD a b))
      | _ => Except.error ⟨lineno, "HEAD requires two arguments"⟩
    else if op == "TAIL" then
      match args with
      | [a, b] => Except.ok (some (Op.TAIL a b))
      | _ => Except.error ⟨lineno, "TAIL requires two arguments"⟩
    else if op == "ASSIGN" then
      match args with
      | [a, b] =>
        match to_int_const b with
        | none => Except.error ⟨lineno, "ASSIGN needs integer constant, got: " ++ b⟩
        | some v => Except.ok (some (Op.ASSIGN a v))
      | _ => Except.error ⟨lineno, "ASSIGN requires two arguments"⟩
    else if op == "CHS" then
      match args with
      | [a] => Except.ok (some (Op.CHS a))
      | _ => Except.error ⟨lineno, "CHS requires one argument"⟩
    else if op == "ADD" then
      match args with
      | [a, b] => Except.ok (some (Op.ADD a b))
      | _ => Except.error ⟨lineno, "ADD requires two arguments"⟩
    else if op == "IF" then
      match args with
      | [a, b] =>
        match to_int_const b with
        | none => Except.error ⟨lineno, "IF target must be positive integer"⟩
        | some v =>
          -- the C++ narrows the stoll result through a cast to `int`
          let target := wrap32 v
          if target ≤ 0 then
            Except.error ⟨lineno, "IF target must be positive integer"⟩
          else Except.ok (some (Op.IF a target))
      | _ => Except.error ⟨lineno, "IF requires two arguments"⟩
    else if op == "HLT" then
      match args with
      | [] => Except.ok (some Op.HLT)
      | _ => Except.error ⟨lineno, "HLT takes no arguments"⟩
    else Except.error ⟨lineno, "Unknown operation: " ++ op⟩

/-- Worker for `load_program`: parse each line, abort on the first error,
turn blank lines into NOPs, assign 1-based line numbers by position. -/
def loadAux : List String → Nat → Except PErr (List Instruction)
  | [], _ => Except.ok []
  | l :: rest, n =>
    match parse_line l n with
    | Except.error e => Except.error e
    | Except.ok o =>
      match loadAux rest (n + 1) with
      | Except.error e => Except.error e
      | Except.ok is =>
        match o with
        | none => Except.ok (⟨n, Op.NOP⟩ :: is)
        | some op => Except.ok (⟨n, op⟩ :: is)

/-- `load_program` on the already-read lines of the file. -/
def loadProgram (lines : List String) : Except PErr (List Instruction) :=
  loadAux lines 1

/-- Outcome of the driver loop: normal termination or a runtime failure
(the environment persists either way until process end). -/
inductive RunOut where
  | ok (s : State)
  | fail (s : State) (e : RErr)
deriving DecidableEq

/-- The state carried by a driver outcome. -/
def RunOut.state : RunOut → State
  | RunOut.ok s => s
  | RunOut.fail s _ => s

/-- The `while (pc >= 1)` loop of `run_program`, fuel-bounded (the C++
loop can run forever; `none` is fuel exhaustion). -/
def runLoop (prog : List Instruction) : Nat → State → Int → Option RunOut
  | 0, _, _ => none
  | fuel + 1, s, pc =>
    if pc < 1 then some (RunOut.ok s)
    else if pc > (prog.length : Int) then some (RunOut.ok s)
    else
      match prog[(pc - 1).toNat]? with
      | none => some (RunOut.ok s)
      | some ins =>
        match execute ins s pc prog.length with
        | (s', Except.error e) => some (RunOut.fail s' e)
        | (s', Except.ok next) =>
          if next == -1 then some (RunOut.ok s')
          else runLoop prog fuel s' next

/-- Lexicographic comparison of character lists: the order `std::string`
operator< induces on the report names (structural, so it computes). -/
def strLtCore : List Char → List Char → Bool
  | _, [] => false
  | [], _ :: _ => true
  | a :: as, b :: bs =>
    if a < b then true else if b < a then false else strLtCore as bs

/-- `std::string` operator< on identifiers. -/
def strLt (a b : String) : Bool := strLtCore a.data b.data

/-- Insert a string into a sorted list (ascending, `std::sort` order). -/
def insertStr (x : String) : List String → List String
  | [] => [x]
  | y :: ys => if strLt y x then y :: insertStr x ys else x :: y :: ys

/-- Sort identifiers ascending, as `std::sort` over `std::string` does. -/
def sortStrings : List String → List String
  | [] => []
  | x :: xs => insertStr x (sortStrings xs)

/-- The final report of `run_program`: one line per declared identifier,
names sorted ascending, each `name = rendered-value`. -/
def report (env : Env) (heap : Heap) : List String :=
  (sortStrings (envKeys env)).map
    (fun n => n ++ " = " ++ value_to_string heap.length heap ((envGet env n).getD (Val.int 0)))

/-- `run_program`: run from line 1 on an empty environment; on a runtime
error print one diagnostic line to the error stream and suppress the
report; on normal termination print the report to standard output.
Result: `(stdout lines, stderr lines)`, `none` on fuel exhaustion. -/
def run_program (prog : List Instruction) (fuel : Nat) :
    Option (List String × List String) :=
  match runLoop prog fuel ⟨[], []⟩ 1 with
  | none => none
  | some (RunOut.fail _ e) => some ([], ["Runtime error: " ++ errMsg e])
  | some (RunOut.ok s) => some (report s.env s.heap, [])

/-- `main`: `args` is the whole `argv`, `file` the lines of the program
file (`none` when it cannot be opened).  Result: exit code, stdout lines,
stderr lines. -/
def mainModel (args : List String) (file : Option (List String)) (fuel : Nat) :
    Option (Nat × List String × List String) :=
  if args.length ≠ 2 then some (1, [], ["Usage: ppl <program-file>"])
  else
    match file with
    | none => some (1, [],
        ["Error loading program: Unable to open file: " ++ (args.getD 1 "")])
    | some lines =>
      match loadProgram lines with
      | Except.error e => some (1, [],
          ["Error loading program: Line " ++ toString e.line ++ ": " ++ e.msg])
      | Except.ok prog =>
        match run_program prog fuel with
        | none => none
        | some (out, err) => some (0, out, err)

/-- Load and run a source text, as `main` does after opening the file. -/
def runSource (lines : List String) (fuel : Nat) :
    Option (List String × List String) :=
  match loadProgram lines with
  | Except.error _ => none
  | Except.ok prog => run_program prog fuel

/-- A handle is below a bound (null handles always are). -/
def hLT : Option Nat → Nat → Prop
  | none, _ => True
  | some i, n => i < n

/-- Boolean form of `hLT`. -/
def hLTb : Option Nat → Nat → Bool
  | none, _ => true
  | some i, n => i < n

/-- A node at address `i` only refers to strictly earlier nodes, through
its `next` pointer and through a nested list value. -/
def nodeWFb (i : Nat) (nd : Node) : Bool :=
  hLTb nd.next i &&
    (match nd.v with
     | Val.list h2 => hLTb h2 i
     | Val.int _ => true)

/-- Heap well-formedness: every allocated node refers only to earlier
nodes.  This holds for every heap the interpreter builds (nodes are
allocated after everything they point to) and rules out cycles. -/
def heapWF (heap : Heap) : Prop :=
  (List.range heap.length).all (fun i => nodeWFb i (nodeAt heap i)) = true

/-- A value's handle (if any) is below a bound. -/
def valHLT : Val → Nat → Prop
  | Val.int _, _ => True
  | Val.list h, n => hLT h n

/-- `e'` declares every identifier `e` declares. -/
def subsetKeys (e e' : Env) : Prop :=
  ∀ k, k ∈ envKeys e → k ∈ envKeys e'

/-! ### Environment lemmas -/

theorem envGet_envSet_self (e : Env) (id : String) (v : Val) :
    envGet (envSet e id v) id = some v := by
  induction e with
  | nil => simp [envSet, envGet]
  | cons p r ih =>
    obtain ⟨k, w⟩ := p
    by_cases h : k = id
    · simp [envSet, envGet, h]
    · simp [envSet, envGet, h, ih]

theorem envGet_envSet_ne (e : Env) (id k : String) (v : Val) (h : k ≠ id) :
    envGet (envSet e id v) k = envGet e k := by
  induction e with
  | nil =>
    have hne : ¬ id = k := fun hh => h hh.symm
    simp [envSet, envGet, hne]
  | cons p r ih =>
    obtain ⟨k', w⟩ := p
    by_cases h' : k' = id
    · subst h'
      have hne : ¬ k' = k := fun hh => h hh.symm
      simp [envSet, envGet, hne]
    · simp only [envSet, beq_iff_eq, h', if_false, envGet]
      by_cases h'' : k' = k <;> simp [h'', ih]

theorem mem_envKeys_envSet (e : Env) (id k : String) (v : Val)
    (h : k ∈ envKeys e) : k ∈ envKeys (envSet e id v) := by
  induction e with
  | nil => simp [envKeys] at h
  | cons p r ih =>
    obtain ⟨k', w⟩ := p
    simp only [envKeys, List.map_cons, List.mem_cons] at h
    by_cases h' : k' = id
    · subst h'
      rcases h with h | h
      · simp [envSet, envKeys, h]
      · simp [envSet, envKeys, h]
    · rcases h with h | h
      · simp [envSet, envKeys, h', h]
      · have := ih h
        simp only [envSet, beq_iff_eq, h', if_false]
        simp only [envKeys, List.map_cons, List.mem_cons]
        exact Or.inr this

theorem subsetKeys_envSet (e : Env) (id : String) (v : Val) :
    subsetKeys e (envSet e id v) :=
  fun k hk => mem_envKeys_envSet e id k v hk

theorem subsetKeys_refl (e : Env) : subsetKeys e e := fun _ hk => hk

theorem subsetKeys_trans {a b c : Env}
    (h1 : subsetKeys a b) (h2 : subsetKeys b c) : subsetKeys a c :=
  fun k hk => h2 k (h1 k hk)

theorem envExists_true_of_envGet {e : Env} {id : String} {v : Val}
    (h : envGet e id = some v) : envExists e id = true := by
  simp [envExists, h]

theorem envGet_isSome_of_envExists {e : Env} {id : String}
    (h : envExists e id = true) : ∃ v, envGet e id = some v := by
  simpa [envExists, Option.isSome_iff_exists] using h

theorem envGet_mem_keys {e : Env} {id : String} {v : Val}
    (h : envGet e id = some v) : id ∈ envKeys e := by
  induction e with
  | nil => simp [envGet] at h
  | cons p r ih =>
    obtain ⟨k, w⟩ := p
    by_cases h' : k = id
    · simp [envKeys, h']
    · simp only [envGet, beq_iff_eq, h', if_false] at h
      simp only [envKeys, List.map_cons, List.mem_cons]
      exact Or.inr (ih h)

/-! ### Heap well-formedness lemmas -/

theorem hLTb_iff (h : Option Nat) (n : Nat) : hLTb h n = true ↔ hLT h n := by
  cases h <;> simp [hLTb, hLT]

theorem hLT_mono {h : Option Nat} {n m : Nat} (hn : hLT h n) (hm : n ≤ m) :
    hLT h m := by
  cases h with
  | none => trivial
  | some i => exact lt_of_lt_of_le hn hm

theorem heapWF_elim {heap : Heap} (hwf : heapWF heap) {i : Nat} {nd : Node}
    (hi : heap[i]? = some nd) : hLT nd.next i ∧ valHLT nd.v i := by
  have hilen : i < heap.length := by
    by_contra hc
    rw [List.getElem?_eq_none (Nat.le_of_not_lt hc)] at hi
    exact Option.noConfusion hi
  have h1 : nodeWFb i (nodeAt heap i) = true := by
    have := List.all_eq_true.mp hwf i (List.mem_range.mpr hilen)
    simpa using this
  have hnd : nodeAt heap i = nd := by simp [nodeAt, hi]
  rw [hnd] at h1
  simp only [nodeWFb, Bool.and_eq_true] at h1
  refine ⟨(hLTb_iff _ _).mp h1.1, ?_⟩
  cases hv : nd.v with
  | int k => trivial
  | list h2 =>
    rw [hv] at h1
    exact (hLTb_iff _ _).mp h1.2

theorem heapWF_intro {heap : Heap}
    (h : ∀ i nd, heap[i]? = some nd → hLT nd.next i ∧ valHLT nd.v i) :
    heapWF heap := by
  apply List.all_eq_true.mpr
  intro i hi
  have hilen : i < heap.length := List.mem_range.mp hi
  have hsome : heap[i]? = some heap[i] := List.getElem?_eq_getElem hilen
  have := h i heap[i] hsome
  have hnd : nodeAt heap i = heap[i] := by simp [nodeAt, hsome]
  rw [hnd]
  simp only [nodeWFb, Bool.and_eq_true]
  refine ⟨(hLTb_iff _ _).mpr this.1, ?_⟩
  cases hv : (heap[i] : Node).v with
  | int k => simp
  | list h2 =>
    have := this.2
    rw [hv] at this
    exact (hLTb_iff _ _).mpr this

theorem heapWF_nil : heapWF [] := heapWF_intro (by intro i nd h; simp at h)

theorem prefix_getElem? {pre big : Heap} (hp : pre <+: big) {i : Nat}
    (hi : i < pre.length) : big[i]? = pre[i]? := by
  obtain ⟨t, rfl⟩ := hp
  simp [List.getElem?_append, hi]

theorem heapWF_append_one {pre : Heap} {nd : Node} (hwf : heapWF pre)
    (hnext : hLT nd.next pre.length) (hv : valHLT nd.v pre.length) :
    heapWF (pre ++ [nd]) := by
  apply heapWF_intro
  intro i nd' hi
  rcases Nat.lt_trichotomy i pre.length with hlt | heq | hgt
  · rw [prefix_getElem? ⟨[nd], rfl⟩ hlt] at hi
    exact heapWF_elim hwf hi
  · subst heq
    rw [List.getElem?_concat_length] at hi
    cases hi
    exact ⟨hnext, hv⟩
  · exfalso
    have : (pre ++ [nd]).length ≤ i := by
      simp [List.length_append]
      omega
    rw [List.getElem?_eq_none this] at hi
    exact Option.noConfusion hi

/-! ### Reading chains: extension and fuel stability -/

theorem chainP_ext (ext : Heap) : ∀ (fuel : Nat) (heap : Heap), heapWF heap →
    ∀ (h : Option Nat), hLT h heap.length →
    chainP fuel (heap ++ ext) h = chainP fuel heap h := by
  intro fuel
  induction fuel with
  | zero =>
    intro heap _ h _
    cases h <;> simp [chainP]
  | succ f ih =>
    intro heap hwf h hh
    cases h with
    | none => simp [chainP]
    | some i =>
      have hi : i < heap.length := hh
      have hgi : (heap ++ ext)[i]? = heap[i]? := by
        simp [List.getElem?_append, hi]
      cases hnd : heap[i]? with
      | none => simp [chainP, hgi, hnd]
      | some nd =>
        obtain ⟨hnext, hv⟩ := heapWF_elim hwf hnd
        have htail := ih heap hwf nd.next (hLT_mono hnext (le_of_lt hi))
        cases hval : nd.v with
        | int k => simp [chainP, hgi, hnd, hval, htail]
        | list h2 =>
          have hh2 : hLT h2 heap.length := by
            have hv' : valHLT (Val.list h2) i := hval ▸ hv
            simp only [valHLT] at hv'
            exact hLT_mono hv' (le_of_lt hi)
          simp [chainP, hgi, hnd, hval, htail, ih heap hwf h2 hh2]

theorem chainP_fuel : ∀ (i : Nat) (heap : Heap), heapWF heap →
    ∀ (f g : Nat), i < f → i < g →
    chainP f heap (some i) = chainP g heap (some i) := by
  intro i
  induction i using Nat.strong_induction_on with
  | _ i ih =>
    intro heap hwf f g hf hg
    obtain ⟨f', rfl⟩ : ∃ f', f = f' + 1 := ⟨f - 1, by omega⟩
    obtain ⟨g', rfl⟩ : ∃ g', g = g' + 1 := ⟨g - 1, by omega⟩
    cases hnd : heap[i]? with
    | none => simp [chainP, hnd]
    | some nd =>
      obtain ⟨hnext, hv⟩ := heapWF_elim hwf hnd
      have htail : chainP f' heap nd.next = chainP g' heap nd.next := by
        cases hn : nd.next with
        | none => simp [chainP]
        | some j =>
          have hj : j < i := by rw [hn] at hnext; exact hnext
          exact ih j hj heap hwf f' g' (by omega) (by omega)
      cases hval : nd.v with
      | int k => simp [chainP, hnd, hval, htail]
      | list h2 =>
        have hv2 : hLT h2 i := by
          have hv' : valHLT (Val.list h2) i := hval ▸ hv
          simpa [valHLT] using hv'
        have hel : chainP f' heap h2 = chainP g' heap h2 := by
          cases hh2 : h2 with
          | none => simp [chainP]
          | some m =>
            have hm : m < i := by rw [hh2] at hv2; exact hv2
            exact ih m hm heap hwf f' g' (by omega) (by omega)
        simp [chainP, hnd, hval, htail, hel]

theorem chainP_fuel' {heap : Heap} (hwf : heapWF heap) {h : Option Nat}
    {f g : Nat} (hf : hLT h f) (hg : hLT h g) :
    chainP f heap h = chainP g heap h := by
  cases h with
  | none => simp [chainP]
  | some i => exact chainP_fuel i heap hwf f g hf hg

theorem chainP_stable {pre big : Heap} (hp : pre <+: big) (hwf : heapWF pre)
    {h : Option Nat} (hh : hLT h pre.length) {f g : Nat}
    (hf : hLT h f) (hg : hLT h g) :
    chainP f big h = chainP g pre h := by
  obtain ⟨t, rfl⟩ := hp
  rw [chainP_ext t f pre hwf h hh]
  exact chainP_fuel' hwf hf hg

theorem valP_stable {pre big : Heap} (hp : pre <+: big) (hwf : heapWF pre)
    {v : Val} (hv : valHLT v pre.length) {f g : Nat}
    (hf : pre.length ≤ f) (hg : pre.length ≤ g) :
    valP f big v = valP g pre v := by
  cases v with
  | int k => simp [valP]
  | list h =>
    simp only [valP]
    have hh : hLT h pre.length := hv
    rw [chainP_stable hp hwf hh (hLT_mono hh hf) (hLT_mono hh hg)]

/-- Reading the chain of a freshly appended node: its value then the chain
of its `next`. -/
theorem chainP_append_node (pre : Heap) (hwf : heapWF pre) (v2 : Val)
    (hv2 : valHLT v2 pre.length) (nx : Option Nat) (hnx : hLT nx pre.length) :
    chainP (pre ++ [Node.mk v2 nx]).length (pre ++ [Node.mk v2 nx]) (some pre.length)
      = valP pre.length pre v2 :: chainP pre.length pre nx := by
  have hlen : (pre ++ [Node.mk v2 nx] : Heap).length = pre.length + 1 := by simp
  rw [hlen]
  simp only [chainP, List.getElem?_concat_length]
  have htail : chainP pre.length (pre ++ [Node.mk v2 nx]) nx
      = chainP pre.length pre nx :=
    chainP_stable ⟨[Node.mk v2 nx], rfl⟩ hwf hnx hnx hnx
  cases v2 with
  | int k => simp [valP, htail]
  | list h2 =>
    have hh2 : hLT h2 pre.length := hv2
    have hel : chainP pre.length (pre ++ [Node.mk (Val.list h2) nx]) h2
        = chainP pre.length pre h2 :=
      chainP_stable ⟨[Node.mk (Val.list h2) nx], rfl⟩ hwf hh2 hh2 hh2
    simp [valP, htail, hel]

/-- One unfolding of a chain read at a live address, at the canonical fuel. -/
theorem chainP_cons_unfold {heap : Heap} (hwf : heapWF heap) {i : Nat}
    {nd : Node} (hnd : heap[i]? = some nd) (hi : i < heap.length) :
    chainP heap.length heap (some i)
      = valP heap.length heap nd.v :: chainP heap.length heap nd.next := by
  obtain ⟨hnext, hv⟩ := heapWF_elim hwf hnd
  obtain ⟨m, hm⟩ : ∃ m, heap.length = m + 1 := ⟨heap.length - 1, by omega⟩
  have him : i ≤ m := by omega
  rw [hm]
  simp only [chainP, hnd]
  have htail : chainP m heap nd.next = chainP (m + 1) heap nd.next :=
    chainP_fuel' hwf (hLT_mono hnext him) (hLT_mono hnext (by omega))
  cases hval : nd.v with
  | int k => simp [valP, htail]
  | list h2 =>
    have hh2 : hLT h2 i := by
      have hv' : valHLT (Val.list h2) i := hval ▸ hv
      simpa [valHLT] using hv'
    have hel : chainP m heap h2 = chainP (m + 1) heap h2 :=
      chainP_fuel' hwf (hLT_mono hh2 him) (hLT_mono hh2 (by omega))
    simp [valP, htail, hel]

/-! ### Deep copy: extension, well-formedness, freshness, value preservation -/

theorem deepCopyChain_spec : ∀ (fuel : Nat) (heap : Heap) (h : Option Nat),
    heapWF heap → hLT h heap.length →
    heap <+: (deepCopyChain fuel heap h).1
    ∧ heapWF (deepCopyChain fuel heap h).1
    ∧ hLT (deepCopyChain fuel heap h).2 (deepCopyChain fuel heap h).1.length
    ∧ (∀ a, (deepCopyChain fuel heap h).2 = some a → heap.length ≤ a)
    ∧ (hLT h fuel →
        chainP (deepCopyChain fuel heap h).1.length (deepCopyChain fuel heap h).1
            (deepCopyChain fuel heap h).2
          = chainP heap.length heap h) := by
  intro fuel
  induction fuel with
  | zero =>
    intro heap h hwf hh
    cases h with
    | none =>
      exact ⟨List.prefix_refl _, hwf, trivial, fun a ha => by simp [deepCopyChain] at ha,
        fun _ => by simp [deepCopyChain]⟩
    | some i =>
      refine ⟨List.prefix_refl _, hwf, trivial,
        fun a ha => by simp [deepCopyChain] at ha, fun hfa => ?_⟩
      exact absurd (show i < 0 from hfa) (by omega)
  | succ f ih =>
    intro heap h hwf hh
    cases h with
    | none =>
      exact ⟨List.prefix_refl _, hwf, trivial, fun a ha => by simp [deepCopyChain] at ha,
        fun _ => by simp [deepCopyChain]⟩
    | some i =>
      have hi : i < heap.length := hh
      cases hnd : heap[i]? with
      | none =>
        exfalso
        rw [List.getElem?_eq_getElem hi] at hnd
        exact Option.noConfusion hnd
      | some nd =>
        obtain ⟨hnext, hvx⟩ := heapWF_elim hwf hnd
        have hnextlen : hLT nd.next heap.length := hLT_mono hnext (le_of_lt hi)
        rcases hE1 : deepCopyChain f heap nd.next with ⟨heap1, h1⟩
        have ih1 := ih heap nd.next hwf hnextlen
        rw [hE1] at ih1
        obtain ⟨hpre1, hwf1, hh1, hfresh1, hpur1⟩ := ih1
        have hlen1 : heap.length ≤ heap1.length := hpre1.length_le
        cases hval : nd.v with
        | int k =>
          have heq : deepCopyChain (f + 1) heap (some i)
              = (heap1 ++ [Node.mk (Val.int k) h1], some heap1.length) := by
            simp [deepCopyChain, hnd, hval, hE1]
          rw [heq]
          have hwf2 : heapWF (heap1 ++ [Node.mk (Val.int k) h1]) :=
            heapWF_append_one hwf1 hh1 trivial
          refine ⟨hpre1.trans ⟨[Node.mk (Val.int k) h1], rfl⟩, hwf2, ?_, ?_, ?_⟩
          · show heap1.length < (heap1 ++ [Node.mk (Val.int k) h1] : Heap).length
            simp
          · intro a ha
            cases ha
            exact hlen1
          · intro hfi
            have hif : i < f + 1 := hfi
            rw [chainP_append_node heap1 hwf1 (Val.int k) trivial h1 hh1]
            rw [chainP_cons_unfold hwf hnd hi, hval]
            have htail : chainP heap1.length heap1 h1 = chainP heap.length heap nd.next := by
              have := hpur1 (by
                cases hn : nd.next with
                | none => trivial
                | some j =>
                  show j < f
                  have : j < i := by rw [hn] at hnext; exact hnext
                  omega)
              exact this
            rw [htail]
            simp [valP]
        | list h2 =>
          have hh2i : hLT h2 i := by
            have hv' : valHLT (Val.list h2) i := hval ▸ hvx
            simpa [valHLT] using hv'
          have hh2len : hLT h2 heap1.length :=
            hLT_mono (hLT_mono hh2i (le_of_lt hi)) hlen1
          rcases hE2 : deepCopyChain f heap1 h2 with ⟨heap2, hc2⟩
          have ih2 := ih heap1 h2 hwf1 hh2len
          rw [hE2] at ih2
          obtain ⟨hpre2, hwf2, hh2', hfresh2, hpur2⟩ := ih2
          have hlen2 : heap1.length ≤ heap2.length := hpre2.length_le
          have heq : deepCopyChain (f + 1) heap (some i)
              = (heap2 ++ [Node.mk (Val.list hc2) h1], some heap2.length) := by
            simp [deepCopyChain, hnd, hval, hE1, hE2]
          rw [heq]
          have hh1' : hLT h1 heap2.length := hLT_mono hh1 hlen2
          have hwf3 : heapWF (heap2 ++ [Node.mk (Val.list hc2) h1]) :=
            heapWF_append_one hwf2 hh1' hh2'
          refine ⟨(hpre1.trans hpre2).trans ⟨[Node.mk (Val.list hc2) h1], rfl⟩,
            hwf3, ?_, ?_, ?_⟩
          · show heap2.length < (heap2 ++ [Node.mk (Val.list hc2) h1] : Heap).length
            simp
          · intro a ha
            cases ha
            exact le_trans hlen1 hlen2
          · intro hfi
            have hif : i < f + 1 := hfi
            rw [chainP_append_node heap2 hwf2 (Val.list hc2) hh2' h1 hh1']
            rw [chainP_cons_unfold hwf hnd hi, hval]
            have htail : chainP heap2.length heap2 h1 = chainP heap.length heap nd.next := by
              have hstep : chainP heap2.length heap2 h1 = chainP heap1.length heap1 h1 :=
                chainP_stable hpre2 hwf1 hh1 (hLT_mono hh1 hlen2) hh1
              rw [hstep]
              exact hpur1 (by
                cases hn : nd.next with
                | none => trivial
                | some j =>
                  show j < f
                  have : j < i := by rw [hn] at hnext; exact hnext
                  omega)
            rw [htail]
            have hel : chainP heap2.length heap2 hc2 = chainP heap.length heap h2 := by
              have hstep : chainP heap2.length heap2 hc2 = chainP heap1.length heap1 h2 :=
                hpur2 (by
                  cases hh2c : h2 with
                  | none => trivial
                  | some m =>
                    show m < f
                    have : m < i := by rw [hh2c] at hh2i; exact hh2i
                    omega)
              rw [hstep]
              exact chainP_stable hpre1 hwf (hLT_mono hh2i (le_of_lt hi))
                (hLT_mono (hLT_mono hh2i (le_of_lt hi)) hlen1)
                (hLT_mono hh2i (le_of_lt hi))
            simp [valP, hel]

/-- `deep_copy` of a value: the heap only grows, stays well-formed, the
copy's handle is fresh and valid, and the copied value denotes the same
pure value as the original. -/
theorem deepCopyVal_spec (heap : Heap) (v : Val) (hwf : heapWF heap)
    (hv : valHLT v heap.length) :
    heap <+: (deepCopyVal heap.length heap v).1
    ∧ heapWF (deepCopyVal heap.length heap v).1
    ∧ valHLT (deepCopyVal heap.length heap v).2 (deepCopyVal heap.length heap v).1.length
    ∧ valP (deepCopyVal heap.length heap v).1.length (deepCopyVal heap.length heap v).1
        (deepCopyVal heap.length heap v).2
      = valP heap.length heap v := by
  cases v with
  | int k => exact ⟨List.prefix_refl _, hwf, trivial, rfl⟩
  | list h =>
    have hh : hLT h heap.length := hv
    obtain ⟨hpre, hwf', hh', _, hpur⟩ :=
      deepCopyChain_spec heap.length heap h hwf hh
    have hfuel : hLT h heap.length := hh
    refine ⟨hpre, hwf', hh', ?_⟩
    simp only [deepCopyVal, valP]
    rw [hpur hfuel]

/-! ### Rendering refinement: the C++ walk agrees with the spec renderer -/

theorem renderL_eq_map : ∀ (es : List PVal), renderL es = es.map renderP := by
  intro es
  induction es with
  | nil => simp [renderL]
  | cons e es ih => simp [renderL, ih]

theorem listItems_eq_render : ∀ (fuel : Nat) (heap : Heap) (h : Option Nat),
    listItems fuel heap h = renderL (chainP fuel heap h) := by
  intro fuel
  induction fuel with
  | zero =>
    intro heap h
    cases h <;> simp [listItems, chainP, renderL]
  | succ f ih =>
    intro heap h
    cases h with
    | none => simp [listItems, chainP, renderL]
    | some i =>
      cases hnd : heap[i]? with
      | none => simp [listItems, chainP, hnd, renderL]
      | some nd =>
        cases hval : nd.v with
        | int k => simp [listItems, chainP, hnd, hval, renderL, renderP, ih]
        | list h2 => simp [listItems, chainP, hnd, hval, renderL, renderP, ih]

theorem list_to_string_eq_render (fuel : Nat) (heap : Heap) (h : Option Nat) :
    list_to_string fuel heap h = renderP (PVal.list (chainP fuel heap h)) := by
  simp [list_to_string, renderP, listItems_eq_render]

theorem value_to_string_eq_render (fuel : Nat) (heap : Heap) (v : Val) :
    value_to_string fuel heap v = renderP (valP fuel heap v) := by
  cases v with
  | int k => simp [value_to_string, valP, renderP]
  | list h => simp [value_to_string, valP, list_to_string_eq_render]

/-! ### Sorting the report names -/

theorem strLtCore_iff : ∀ (as bs : List Char), strLtCore as bs = true ↔ as < bs := by
  intro as
  induction as with
  | nil =>
    intro bs
    cases bs with
    | nil =>
      refine ⟨fun h => by simp [strLtCore] at h, fun h => by cases h⟩
    | cons b bs =>
      exact ⟨fun _ => List.Lex.nil, fun _ => rfl⟩
  | cons a as ih =>
    intro bs
    cases bs with
    | nil =>
      refine ⟨fun h => by simp [strLtCore] at h, fun h => by cases h⟩
    | cons b bs =>
      by_cases hab : a < b
      · exact ⟨fun _ => List.Lex.rel hab, fun _ => by simp [strLtCore, hab]⟩
      · by_cases hba : b < a
        · simp only [strLtCore, hab, if_neg, not_false_iff, hba, if_pos]
          refine ⟨fun h => by simp at h, fun h => ?_⟩
          cases h with
          | rel h' => exact absurd h' hab
          | cons h' => exact absurd hba (lt_irrefl _)
        · have heq : a = b := le_antisymm (le_of_not_lt hba) (le_of_not_lt hab)
          subst heq
          simp only [strLtCore]
          rw [if_neg (lt_irrefl a), if_neg (lt_irrefl a), ih bs]
          refine ⟨fun h => List.Lex.cons h, fun h => ?_⟩
          cases h with
          | rel h' => exact absurd h' (lt_irrefl _)
          | cons h' => exact h'

theorem strLt_iff (a b : String) : strLt a b = true ↔ a < b := by
  rw [strLt, strLtCore_iff]
  exact ⟨fun h => String.lt_iff_toList_lt.mpr h, fun h => String.lt_iff_toList_lt.mp h⟩

theorem insertStr_perm (x : String) (l : List String) :
    List.Perm (insertStr x l) (x :: l) := by
  induction l with
  | nil => simp [insertStr]
  | cons y ys ih =>
    by_cases h : strLt y x = true
    · simp only [insertStr, h, if_pos]
      exact ((ih.cons y).trans (List.Perm.swap x y ys))
    · simp [insertStr, h]

theorem sortStrings_perm (l : List String) :
    List.Perm (sortStrings l) l := by
  induction l with
  | nil => simp [sortStrings]
  | cons x xs ih =>
    exact (insertStr_perm x (sortStrings xs)).trans (ih.cons x)

theorem sorted_insertStr (x : String) (l : List String)
    (h : l.Sorted (· ≤ ·)) : (insertStr x l).Sorted (· ≤ ·) := by
  induction l with
  | nil => simp [insertStr]
  | cons y ys ih =>
    rw [List.sorted_cons] at h
    obtain ⟨hy, hys⟩ := h
    by_cases hlt : strLt y x = true
    · have hyx : y < x := (strLt_iff y x).mp hlt
      simp only [insertStr, hlt, if_pos]
      rw [List.sorted_cons]
      refine ⟨?_, ih hys⟩
      intro b hb
      have hb' : b ∈ x :: ys := (insertStr_perm x ys).mem_iff.mp hb
      rcases List.mem_cons.mp hb' with hb' | hb'
      · subst hb'; exact le_of_lt hyx
      · exact hy b hb'
    · have hnyx : ¬ y < x := fun hc => hlt ((strLt_iff y x).mpr hc)
      simp only [insertStr, hlt, if_neg, not_false_iff, Bool.not_eq_true]
      rw [List.sorted_cons]
      refine ⟨?_, List.sorted_cons.mpr ⟨hy, hys⟩⟩
      intro b hb
      have hxy : x ≤ y := le_of_not_lt hnyx
      rcases List.mem_cons.mp hb with hb | hb
      · subst hb; exact hxy
      · exact le_trans hxy (hy b hb)

theorem sorted_sortStrings (l : List String) :
    (sortStrings l).Sorted (· ≤ ·) := by
  induction l with
  | nil => simp [sortStrings]
  | cons x xs ih => exact sorted_insertStr x (sortStrings xs) ih

/-! ### Loader: the first parse error aborts the whole load -/

theorem loadAux_first_error : ∀ (lines : List String) (n i : Nat)
    (li : String) (e : PErr),
    lines[i]? = some li → parse_line li (n + i) = Except.error e →
    (∀ j lj, j < i → lines[j]? = some lj →
      ∃ r, parse_line lj (n + j) = Except.ok r) →
    loadAux lines n = Except.error e := by
  intro lines
  induction lines with
  | nil =>
    intro n i li e hli _ _
    simp at hli
  | cons l rest ih =>
    intro n i li e hli hpe hok
    cases i with
    | zero =>
      simp at hli
      subst hli
      simp only [loadAux]
      rw [show n + 0 = n from rfl] at hpe
      rw [hpe]
    | succ i' =>
      obtain ⟨r0, hr0⟩ := hok 0 l (Nat.succ_pos i') (by simp)
      rw [show n + 0 = n from rfl] at hr0
      simp only [loadAux, hr0]
      have hrest : loadAux rest (n + 1) = Except.error e := by
        refine ih (n + 1) i' li e ?_ ?_ ?_
        · simpa using hli
        · rw [show n + 1 + i' = n + (i' + 1) by omega]
          exact hpe
        · intro j lj hj hlj
          have := hok (j + 1) lj (by omega) (by simpa using hlj)
          rw [show n + (j + 1) = n + 1 + j by omega] at this
          exact this
      rw [hrest]

/-! ### Execution never drops a binding; errors leave the bindings alone -/

theorem execute_keys_mono (ins : Instruction) (s : State) (pc : Int)
    (len : Nat) : subsetKeys s.env (execute ins s pc len).1.env := by
  rcases ins with ⟨ln, op⟩
  cases op <;>
    simp only [execute] <;>
    (repeat' split) <;>
    first
      | exact subsetKeys_refl _
      | exact subsetKeys_envSet _ _ _

theorem execute_error_env (ins : Instruction) (s : State) (pc : Int)
    (len : Nat) (e : RErr) :
    (execute ins s pc len).2 = Except.error e →
    (execute ins s pc len).1.env = s.env := by
  rcases ins with ⟨ln, op⟩
  cases op <;> simp only [execute] <;> (repeat' split) <;> intro h <;>
    first
      | rfl
      | simp at h

theorem runLoop_keys_mono : ∀ (prog : List Instruction) (fuel : Nat)
    (s : State) (pc : Int) (r : RunOut),
    runLoop prog fuel s pc = some r → subsetKeys s.env r.state.env := by
  intro prog fuel
  induction fuel with
  | zero =>
    intro s pc r h
    simp [runLoop] at h
  | succ f ih =>
    intro s pc r h
    simp only [runLoop] at h
    by_cases h1 : pc < 1
    · rw [if_pos h1] at h
      cases h
      exact subsetKeys_refl _
    · rw [if_neg h1] at h
      by_cases h2 : pc > (prog.length : Int)
      · rw [if_pos h2] at h
        cases h
        exact subsetKeys_refl _
      · rw [if_neg h2] at h
        cases hp : prog[(pc - 1).toNat]? with
        | none =>
          simp only [hp] at h
          cases h
          exact subsetKeys_refl _
        | some ins =>
          rcases hE : execute ins s pc prog.length with ⟨s', res⟩
          have hmono : subsetKeys s.env s'.env := by
            have hkm := execute_keys_mono ins s pc prog.length
            rw [hE] at hkm
            exact hkm
          cases res with
          | error e =>
            simp only [hp, hE] at h
            cases h
            exact hmono
          | ok next =>
            by_cases hn : next = -1
            · simp only [hp, hE, hn] at h
              simp at h
              cases h
              exact hmono
            · simp only [hp, hE] at h
              simp only [hn, if_false, beq_iff_eq] at h
              exact subsetKeys_trans hmono (ih s' next r h)

/-! ### Claim theorems -/

/-- C7: for declared identifiers `a` and `b` both bound to `Int` values,
`ADD a b` sets `a` to the sum under two's-complement 64-bit wraparound and
leaves any other binding (in particular `b` when the names differ)
unchanged; otherwise it fails with an `Undefined` or `TypeMismatch`
error. -/
theorem C7_add_semantics :
    (∀ (s : State) (a b : String) (ln : Nat) (pc : Int) (len : Nat) (x y : Int),
      envGet s.env a = some (Val.int x) → envGet s.env b = some (Val.int y) →
      execute ⟨ln, Op.ADD a b⟩ s pc len
        = (⟨envSet s.env a (Val.int (wrap64 (x + y))), s.heap⟩,
           Except.ok (pc + 1)))
    ∧ (∀ (s : State) (a b : String) (ln : Nat) (pc : Int) (len : Nat)
        (l : String), a ≠ l →
      envGet (execute ⟨ln, Op.ADD a b⟩ s pc len).1.env l = envGet s.env l)
    ∧ (∀ (s : State) (a b : String) (ln : Nat) (pc : Int) (len : Nat),
      ¬ (∃ x y, envGet s.env a = some (Val.int x)
          ∧ envGet s.env b = some (Val.int y)) →
      ∃ e, (execute ⟨ln, Op.ADD a b⟩ s pc len).2 = Except.error e
        ∧ (e.cat = ErrCat.undefined ∨ e.cat = ErrCat.typeMismatch)) := by
  refine ⟨?_, ?_, ?_⟩
  · intro s a b ln pc len x y ha hb
    simp [execute, ha, hb]
  · intro s a b ln pc len l hal
    simp only [execute]
    cases hga : envGet s.env a with
    | none => rfl
    | some va =>
      cases hgb : envGet s.env b with
      | none => rfl
      | some vb =>
        cases va <;> cases vb <;>
          first
            | rfl
            | exact envGet_envSet_ne s.env a l _ (Ne.symm hal)
  · intro s a b ln pc len hne
    simp only [execute]
    cases hga : envGet s.env a with
    | none => exact ⟨_, rfl, Or.inl rfl⟩
    | some va =>
      cases hgb : envGet s.env b with
      | none => exact ⟨_, rfl, Or.inl rfl⟩
      | some vb =>
        cases va with
        | int x =>
          cases vb with
          | int y => exact absurd ⟨x, y, hga, hgb⟩ hne
          | list h2 => exact ⟨_, rfl, Or.inr rfl⟩
        | list h1 =>
          cases vb <;> exact ⟨_, rfl, Or.inr rfl⟩

theorem C7_add_semantics_witness :
    execute ⟨5, Op.ADD "x" "y"⟩ ⟨[("x", Val.int 2), ("y", Val.int 3)], []⟩ 5 6
      = (⟨envSet [("x", Val.int 2), ("y", Val.int 3)] "x"
            (Val.int (wrap64 (2 + 3))), []⟩, Except.ok (5 + 1))
    ∧ envGet (execute ⟨5, Op.ADD "x" "y"⟩
        ⟨[("x", Val.int 2), ("y", Val.int 3)], []⟩ 5 6).1.env "y"
      = envGet [("x", Val.int 2), ("y", Val.int 3)] "y" :=
  ⟨C7_add_semantics.1 ⟨[("x", Val.int 2), ("y", Val.int 3)], []⟩ "x" "y" 5 5 6
      2 3 (by rfl) (by rfl),
   C7_add_semantics.2.1 ⟨[("x", Val.int 2), ("y", Val.int 3)], []⟩ "x" "y" 5 5 6
      "y" (by decide)⟩

/-- C8: `INTEGER id` declares `id` as `Int(0)` and `LIST id` declares `id`
as the empty list; each fails with `AlreadyDeclared` — returning the state
unchanged — exactly when `id` is already present, and
`INTEGER x; INTEGER x` fails on the second occurrence. -/
theorem C8_declarations :
    (∀ (s : State) (id : String) (ln : Nat) (pc : Int) (len : Nat),
      envExists s.env id = false →
      execute ⟨ln, Op.INTEGER id⟩ s pc len
        = (⟨envSet s.env id (Val.int 0), s.heap⟩, Except.ok (pc + 1)))
    ∧ (∀ (s : State) (id : String) (ln : Nat) (pc : Int) (len : Nat),
      envExists s.env id = true →
      execute ⟨ln, Op.INTEGER id⟩ s pc len
        = (s, Except.error ⟨ln, ErrCat.alreadyDeclared,
            "Identifier already declared: " ++ id⟩))
    ∧ (∀ (s : State) (id : String) (ln : Nat) (pc : Int) (len : Nat),
      envExists s.env id = false →
      execute ⟨ln, Op.LIST id⟩ s pc len
        = (⟨envSet s.env id (Val.list none), s.heap⟩, Except.ok (pc + 1)))
    ∧ (∀ (s : State) (id : String) (ln : Nat) (pc : Int) (len : Nat),
      envExists s.env id = true →
      execute ⟨ln, Op.LIST id⟩ s pc len
        = (s, Except.error ⟨ln, ErrCat.alreadyDeclared,
            "Identifier already declared: " ++ id⟩))
    ∧ runSource ["INTEGER x", "INTEGER x"] 10
        = some ([], ["Runtime error: Line 2: Identifier already declared: x"]) := by
  refine ⟨?_, ?_, ?_, ?_, by rfl⟩ <;>
    · intro s id ln pc len h
      simp [execute, h]

theorem C8_declarations_witness :
    execute ⟨1, Op.INTEGER "x"⟩ ⟨[], []⟩ 1 2
      = (⟨envSet [] "x" (Val.int 0), []⟩, Except.ok (1 + 1))
    ∧ execute ⟨2, Op.INTEGER "x"⟩ ⟨[("x", Val.int 0)], []⟩ 2 2
      = (⟨[("x", Val.int 0)], []⟩, Except.error ⟨2, ErrCat.alreadyDeclared,
          "Identifier already declared: " ++ "x"⟩) :=
  ⟨C8_declarations.1 ⟨[], []⟩ "x" 1 1 2 (by rfl),
   C8_declarations.2.1 ⟨[("x", Val.int 0)], []⟩ "x" 2 2 2 (by rfl)⟩

/-- C9: no instruction ever removes a binding: the set of declared
identifiers after an instruction (and after any number of driver-loop
steps) is a superset of the set before. -/
theorem C9_no_binding_removed :
    (∀ (ins : Instruction) (s : State) (pc : Int) (len : Nat),
      subsetKeys s.env (execute ins s pc len).1.env)
    ∧ (∀ (prog : List Instruction) (fuel : Nat) (s : State) (pc : Int)
        (r : RunOut),
      runLoop prog fuel s pc = some r → subsetKeys s.env r.state.env) :=
  ⟨execute_keys_mono, runLoop_keys_mono⟩

theorem C9_no_binding_removed_witness :
    subsetKeys [("y", Val.int 1)] [("y", Val.int 1), ("x", Val.int 0)] :=
  C9_no_binding_removed.2 [⟨1, Op.INTEGER "x"⟩] 5 ⟨[("y", Val.int 1)], []⟩ 1
    (RunOut.ok ⟨[("y", Val.int 1), ("x", Val.int 0)], []⟩) (by rfl)

/-- C10: error atomicity — whenever an instruction's execution fails with
a runtime error, the environment bindings are exactly as they were before
the instruction began (every check precedes any binding creation or
mutation). -/
theorem C10_error_atomicity (ins : Instruction) (s : State) (pc : Int)
    (len : Nat) (e : RErr)
    (h : (execute ins s pc len).2 = Except.error e) :
    (execute ins s pc len).1.env = s.env :=
  execute_error_env ins s pc len e h

theorem C10_error_atomicity_witness :
    (execute ⟨1, Op.CHS "x"⟩ ⟨[], []⟩ 1 1).1.env = ([] : Env) :=
  C10_error_atomicity ⟨1, Op.CHS "x"⟩ ⟨[], []⟩ 1 1
    ⟨1, ErrCat.undefined, "CHS undefined id: " ++ "x"⟩ (by rfl)

/-- C2 counterexample: the program `INTEGER x / ASSIGN x 1 / IF x 99`
has an `IF` whose target 99 lies outside `[1, 3]`, yet execution does not
fail with `JumpOutOfRange` — the guard is truthy, so the instruction falls
through and the run terminates normally with its report. -/
theorem C2_counterexample :
    runSource ["INTEGER x", "ASSIGN x 1", "IF x 99"] 10 = some (["x = 1"], [])
    ∧ ¬ ((99 : Int) ≤ 3) := by
  exact ⟨by rfl, by decide⟩

/-- C2 (amended): for `IF id L` with `id` declared, the instruction never
changes the state; it jumps to `L` when `id` is falsy and `L` is inside
`[1, program length]`; it fails with `JumpOutOfRange` when `id` is falsy
and `L` is outside that range; and when `id` is truthy it falls through to
the next line regardless of the target (the range is not checked). -/
theorem C2_if_semantics (s : State) (id : String) (target : Int) (ln : Nat)
    (pc : Int) (len : Nat) (v : Val) (hid : envGet s.env id = some v) :
    (execute ⟨ln, Op.IF id target⟩ s pc len).1 = s
    ∧ (falsy v = true → 1 ≤ target → target ≤ (len : Int) →
        (execute ⟨ln, Op.IF id target⟩ s pc len).2 = Except.ok target)
    ∧ (falsy v = true → (target < 1 ∨ target > (len : Int)) →
        (execute ⟨ln, Op.IF id target⟩ s pc len).2
          = Except.error ⟨ln, ErrCat.jumpOutOfRange,
              "IF jump out of range: " ++ toString target⟩)
    ∧ (falsy v = false →
        (execute ⟨ln, Op.IF id target⟩ s pc len).2 = Except.ok (pc + 1)) := by
  refine ⟨?_, ?_, ?_, ?_⟩
  · by_cases hf : falsy v
    · by_cases hr : target < 1 ∨ target > (len : Int)
      · simp [execute, hid, hf, hr]
      · simp [execute, hid, hf, hr]
    · simp [execute, hid, hf]
  · intro hf h1 h2
    have hr : ¬ (target < 1 ∨ target > (len : Int)) := by omega
    simp [execute, hid, hf, hr]
  · intro hf hr
    simp [execute, hid, hf, hr]
  · intro hf
    simp [execute, hid, hf]

theorem C2_if_semantics_witness :
    (execute ⟨3, Op.IF "x" 2⟩ ⟨[("x", Val.int 0)], []⟩ 3 3).2 = Except.ok 2
    ∧ (execute ⟨3, Op.IF "x" 9⟩ ⟨[("x", Val.int 0)], []⟩ 3 3).2
      = Except.error ⟨3, ErrCat.jumpOutOfRange,
          "IF jump out of range: " ++ toString (9 : Int)⟩ :=
  ⟨(C2_if_semantics ⟨[("x", Val.int 0)], []⟩ "x" 2 3 3 3 (Val.int 0)
      (by rfl)).2.1 (by decide) (by decide) (by decide),
   (C2_if_semantics ⟨[("x", Val.int 0)], []⟩ "x" 9 3 3 3 (Val.int 0)
      (by rfl)).2.2.1 (by decide) (by decide)⟩

/-- C3 counterexample: `parse_line` accepts `MERGE 1a l` although `1a` is
not a syntactically valid identifier — opcodes other than `INTEGER` and
`LIST` never validate their identifier operands. -/
theorem C3_counterexample :
    parse_line "MERGE 1a l" 7 = Except.ok (some (Op.MERGE "1a" "l"))
    ∧ is_identifier "1a" = false :=
  ⟨by rfl, by rfl⟩

/-- C3 (amended): only the `INTEGER` and `LIST` branches of the parser
reject a syntactically invalid identifier operand, with a `ParseError`
tagged with the line number; every other opcode accepts any token in its
identifier positions (validating only arity and, for `ASSIGN`/`IF`, the
numeric operand); and the loader aborts the entire load on the first
parse error, returning that error and no partial program. -/
theorem C3_parser_amended :
    (∀ (line : String) (ln : Nat) (w : String),
      tokenize line = ["INTEGER", w] → is_identifier w = false →
      parse_line line ln = Except.error ⟨ln, "invalid identifier: " ++ w⟩)
    ∧ (∀ (line : String) (ln : Nat) (w : String),
      tokenize line = ["LIST", w] → is_identifier w = false →
      parse_line line ln = Except.error ⟨ln, "invalid identifier: " ++ w⟩)
    ∧ (∀ (line : String) (ln : Nat) (a b : String),
      tokenize line = ["MERGE", a, b] →
      parse_line line ln = Except.ok (some (Op.MERGE a b)))
    ∧ (∀ (line : String) (ln : Nat) (a b : String),
      tokenize line = ["COPY", a, b] →
      parse_line line ln = Except.ok (some (Op.COPY a b)))
    ∧ (∀ (line : String) (ln : Nat) (a b : String),
      tokenize line = ["HEAD", a, b] →
      parse_line line ln = Except.ok (some (Op.HEAD a b)))
    ∧ (∀ (line : String) (ln : Nat) (a b : String),
      tokenize line = ["TAIL", a, b] →
      parse_line line ln = Except.ok (some (Op.TAIL a b)))
    ∧ (∀ (line : String) (ln : Nat) (a b : String),
      tokenize line = ["ADD", a, b] →
      parse_line line ln = Except.ok (some (Op.ADD a b)))
    ∧ (∀ (line : String) (ln : Nat) (a : String),
      tokenize line = ["CHS", a] →
      parse_line line ln = Except.ok (some (Op.CHS a)))
    ∧ (∀ (line : String) (ln : Nat) (a b : String) (v : Int),
      tokenize line = ["ASSIGN", a, b] → to_int_const b = some v →
      parse_line line ln = Except.ok (some (Op.ASSIGN a v)))
    ∧ (∀ (line : String) (ln : Nat) (a b : String) (v : Int),
      tokenize line = ["IF", a, b] → to_int_const b = some v →
      0 < wrap32 v →
      parse_line line ln = Except.ok (some (Op.IF a (wrap32 v))))
    ∧ (∀ (lines : List String) (n i : Nat) (li : String) (e : PErr),
      lines[i]? = some li → parse_line li (n + i) = Except.error e →
      (∀ j lj, j < i → lines[j]? = some lj →
        ∃ r, parse_line lj (n + j) = Except.ok r) →
      loadAux lines n = Except.error e) := by
  refine ⟨?_, ?_, ?_, ?_, ?_, ?_, ?_, ?_, ?_, ?_, loadAux_first_error⟩
  · intro line ln w htok hw
    simp [parse_line, htok, hw]
  · intro line ln w htok hw
    simp [parse_line, htok, hw]
  · intro line ln a b htok
    simp [parse_line, htok]
  · intro line ln a b htok
    simp [parse_line, htok]
  · intro line ln a b htok
    simp [parse_line, htok]
  · intro line ln a b htok
    simp [parse_line, htok]
  · intro line ln a b htok
    simp [parse_line, htok]
  · intro line ln a htok
    simp [parse_line, htok]
  · intro line ln a b v htok hv
    simp [parse_line, htok, hv]
  · intro line ln a b v htok hv hpos
    have hne : ¬ wrap32 v ≤ 0 := by omega
    simp [parse_line, htok, hv, hne]

theorem C3_parser_amended_witness :
    parse_line "INTEGER 9x" 3 = Except.error ⟨3, "invalid identifier: " ++ "9x"⟩
    ∧ parse_line "MERGE 1a 2b" 5 = Except.ok (some (Op.MERGE "1a" "2b"))
    ∧ parse_line "IF 7! 2" 4 = Except.ok (some (Op.IF "7!" (wrap32 2)))
    ∧ loadAux ["HLT", "BLERG y"] 1
        = Except.error ⟨2, "Unknown operation: " ++ "BLERG"⟩ := by
  obtain ⟨h1, h2, h3, h4, h5, h6, h7, h8, h9, h10, h11⟩ := C3_parser_amended
  refine ⟨h1 "INTEGER 9x" 3 "9x" (by rfl) (by rfl),
    h3 "MERGE 1a 2b" 5 "1a" "2b" (by rfl),
    h10 "IF 7! 2" 4 "7!" "2" 2 (by rfl) (by rfl) (by decide),
    h11 ["HLT", "BLERG y"] 1 1 "BLERG y"
      ⟨2, "Unknown operation: " ++ "BLERG"⟩ (by rfl) (by rfl) ?_⟩
  intro j lj hj hlj
  interval_cases j
  · cases hlj
    exact ⟨some Op.HLT, by rfl⟩

/-- C4: a runtime error produces exactly one diagnostic line carrying the
offending line number on the error stream, suppresses the final report,
and the process still exits 0; wrong invocation arguments, an unopenable
file, or a parse error exit 1 with a diagnostic and nothing executed. -/
theorem C4_error_reporting_and_exit_codes :
    (∀ (args : List String) (file : Option (List String)) (fuel : Nat),
      args.length ≠ 2 →
      mainModel args file fuel = some (1, [], ["Usage: ppl <program-file>"]))
    ∧ (∀ (args : List String) (fuel : Nat), args.length = 2 →
      mainModel args none fuel
        = some (1, [],
            ["Error loading program: Unable to open file: " ++ (args.getD 1 "")]))
    ∧ (∀ (args : List String) (lines : List String) (e : PErr) (fuel : Nat),
      args.length = 2 → loadProgram lines = Except.error e →
      mainModel args (some lines) fuel
        = some (1, [],
            ["Error loading program: Line " ++ toString e.line ++ ": " ++ e.msg]))
    ∧ (∀ (prog : List Instruction) (fuel : Nat) (s : State) (e : RErr),
      runLoop prog fuel ⟨[], []⟩ 1 = some (RunOut.fail s e) →
      run_program prog fuel = some ([], ["Runtime error: " ++ errMsg e])
      ∧ errMsg e = "Line " ++ toString e.line ++ ": " ++ e.reason)
    ∧ (∀ (args : List String) (lines : List String) (prog : List Instruction)
        (fuel : Nat) (out err : List String),
      args.length = 2 → loadProgram lines = Except.ok prog →
      run_program prog fuel = some (out, err) →
      mainModel args (some lines) fuel = some (0, out, err)) := by
  refine ⟨?_, ?_, ?_, ?_, ?_⟩
  · intro args file fuel h
    simp [mainModel, h]
  · intro args fuel h
    simp [mainModel, h]
  · intro args lines e fuel h hl
    simp [mainModel, h, hl]
  · intro prog fuel s e h
    exact ⟨by simp [run_program, h], rfl⟩
  · intro args lines prog fuel out err h hl hr
    simp [mainModel, h, hl, hr]

theorem C4_error_reporting_witness :
    mainModel ["ppl", "prog.ppl"]
      (some ["LIST l", "INTEGER h", "HEAD l h", "HLT"]) 10
      = some (0, [],
          ["Runtime error: "
            ++ errMsg ⟨3, ErrCat.emptyList, "HEAD on empty list: " ++ "l"⟩]) :=
  C4_error_reporting_and_exit_codes.2.2.2.2 ["ppl", "prog.ppl"]
    ["LIST l", "INTEGER h", "HEAD l h", "HLT"]
    [⟨1, Op.LIST "l"⟩, ⟨2, Op.INTEGER "h"⟩, ⟨3, Op.HEAD "l" "h"⟩, ⟨4, Op.HLT⟩]
    10 []
    ["Runtime error: " ++ errMsg ⟨3, ErrCat.emptyList, "HEAD on empty list: " ++ "l"⟩]
    (by rfl) (by rfl) (by rfl)

/-- C5: on normal termination the report has exactly one line per declared
identifier, in ascending lexicographic order of name, each line
`name = rendered-value` where integers render as decimal text, the empty
list as "[]", and non-empty lists bracketed, comma-space separated, in
head-to-tail order, rendered recursively. -/
theorem C5_final_report (env : Env) (heap : Heap) :
    ∃ ns : List String,
      List.Perm ns (envKeys env)
      ∧ ns.Sorted (· ≤ ·)
      ∧ ((envKeys env).Nodup → ns.Nodup)
      ∧ report env heap
          = ns.map (fun n => n ++ " = "
              ++ renderP (valP heap.length heap ((envGet env n).getD (Val.int 0))))
      ∧ (∀ i : Int, renderP (PVal.int i) = toString i)
      ∧ renderP (PVal.list []) = "[]"
      ∧ (∀ es, renderP (PVal.list es)
          = "[" ++ String.intercalate ", " (es.map renderP) ++ "]")
      ∧ (∀ (prog : List Instruction) (fuel : Nat) (s : State),
          runLoop prog fuel ⟨[], []⟩ 1 = some (RunOut.ok s) →
          run_program prog fuel = some (report s.env s.heap, [])) := by
  refine ⟨sortStrings (envKeys env), sortStrings_perm _, sorted_sortStrings _,
    ?_, ?_, fun i => rfl, by rfl, ?_, ?_⟩
  · intro h
    exact (sortStrings_perm (envKeys env)).nodup_iff.mpr h
  · simp [report, value_to_string_eq_render]
  · intro es
    simp [renderP, renderL_eq_map]
  · intro prog fuel s h
    simp [run_program, h]

theorem C5_final_report_witness :
    run_program [⟨1, Op.HLT⟩] 5 = some (report ([] : Env) ([] : Heap), []) := by
  obtain ⟨ns, hperm, hsort, hnd, hrep, hint, hnil, hcons, hrun⟩ :=
    C5_final_report [] []
  exact hrun [⟨1, Op.HLT⟩] 5 ⟨[], []⟩ (by rfl)

theorem getElem?_some_lt {heap : Heap} {i : Nat} {nd : Node}
    (h : heap[i]? = some nd) : i < heap.length := by
  by_contra hc
  rw [List.getElem?_eq_none (Nat.le_of_not_lt hc)] at h
  exact Option.noConfusion h

/-- C6: `TAIL src dst` with `src` a declared list never fails on an empty
`src` (it binds `dst` to the empty list) and on a non-empty `src` binds
`dst` to a fresh deep copy of every node after the first; `HEAD list id`
fails with `EmptyList` exactly when the list is empty and otherwise
deep-copies the first element's value into `id` (create or overwrite). -/
theorem C6_tail_head :
    (∀ (s : State) (src dst : String) (ln : Nat) (pc : Int) (len : Nat),
      envGet s.env src = some (Val.list none) →
      execute ⟨ln, Op.TAIL src dst⟩ s pc len
        = (⟨envSet s.env dst (Val.list none), s.heap⟩, Except.ok (pc + 1)))
    ∧ (∀ (s : State) (src dst : String) (ln : Nat) (pc : Int) (len : Nat)
        (i : Nat) (nd : Node),
      envGet s.env src = some (Val.list (some i)) →
      s.heap[i]? = some nd → heapWF s.heap →
      execute ⟨ln, Op.TAIL src dst⟩ s pc len
        = (⟨envSet s.env dst
              (Val.list (deepCopyChain s.heap.length s.heap nd.next).2),
            (deepCopyChain s.heap.length s.heap nd.next).1⟩,
           Except.ok (pc + 1))
      ∧ s.heap <+: (deepCopyChain s.heap.length s.heap nd.next).1
      ∧ chainP (deepCopyChain s.heap.length s.heap nd.next).1.length
          (deepCopyChain s.heap.length s.heap nd.next).1
          (deepCopyChain s.heap.length s.heap nd.next).2
        = (chainP s.heap.length s.heap (some i)).tail
      ∧ (∀ a, (deepCopyChain s.heap.length s.heap nd.next).2 = some a →
          s.heap.length ≤ a))
    ∧ (∀ (s : State) (listid id : String) (ln : Nat) (pc : Int) (len : Nat),
      envGet s.env listid = some (Val.list none) →
      execute ⟨ln, Op.HEAD listid id⟩ s pc len
        = (s, Except.error ⟨ln, ErrCat.emptyList,
            "HEAD on empty list: " ++ listid⟩))
    ∧ (∀ (s : State) (listid id : String) (ln : Nat) (pc : Int) (len : Nat)
        (i : Nat) (nd : Node),
      envGet s.env listid = some (Val.list (some i)) →
      s.heap[i]? = some nd → heapWF s.heap →
      execute ⟨ln, Op.HEAD listid id⟩ s pc len
        = (⟨envSet s.env id (deepCopyVal s.heap.length s.heap nd.v).2,
            (deepCopyVal s.heap.length s.heap nd.v).1⟩, Except.ok (pc + 1))
      ∧ valP (deepCopyVal s.heap.length s.heap nd.v).1.length
          (deepCopyVal s.heap.length s.heap nd.v).1
          (deepCopyVal s.heap.length s.heap nd.v).2
        = valP s.heap.length s.heap nd.v) := by
  refine ⟨?_, ?_, ?_, ?_⟩
  · intro s src dst ln pc len hsrc
    simp [execute, hsrc]
  · intro s src dst ln pc len i nd hsrc hnd hwf
    have hi : i < s.heap.length := getElem?_some_lt hnd
    have hnodeAt : nodeAt s.heap i = nd := by simp [nodeAt, hnd]
    obtain ⟨hnx, _⟩ := heapWF_elim hwf hnd
    have hnxlen : hLT nd.next s.heap.length := hLT_mono hnx (le_of_lt hi)
    obtain ⟨hpre, hwf', hh', hfresh, hpur⟩ :=
      deepCopyChain_spec s.heap.length s.heap nd.next hwf hnxlen
    refine ⟨by simp [execute, hsrc, hnodeAt], hpre, ?_, hfresh⟩
    rw [hpur hnxlen, chainP_cons_unfold hwf hnd hi]
    rfl
  · intro s listid id ln pc len hlst
    simp [execute, hlst]
  · intro s listid id ln pc len i nd hlst hnd hwf
    have hi : i < s.heap.length := getElem?_some_lt hnd
    have hnodeAt : nodeAt s.heap i = nd := by simp [nodeAt, hnd]
    obtain ⟨_, hvv⟩ := heapWF_elim hwf hnd
    have hvlen : valHLT nd.v s.heap.length := by
      cases hval : nd.v with
      | int k => trivial
      | list h2 =>
        have hvl : valHLT (Val.list h2) i := hval ▸ hvv
        simp only [valHLT] at hvl ⊢
        exact hLT_mono hvl (le_of_lt hi)
    obtain ⟨hpre, hwf', hh', hpur⟩ := deepCopyVal_spec s.heap nd.v hwf hvlen
    exact ⟨by simp [execute, hlst, hnodeAt], hpur⟩

theorem C6_tail_head_witness :
    execute ⟨1, Op.TAIL "l" "t"⟩ ⟨[("l", Val.list none)], []⟩ 1 1
      = (⟨envSet [("l", Val.list none)] "t" (Val.list none), []⟩,
         Except.ok (1 + 1))
    ∧ execute ⟨1, Op.HEAD "l" "h2"⟩ ⟨[("l", Val.list none)], []⟩ 1 1
      = (⟨[("l", Val.list none)], []⟩,
         Except.error ⟨1, ErrCat.emptyList, "HEAD on empty list: " ++ "l"⟩)
    ∧ execute ⟨1, Op.TAIL "l" "t"⟩
        ⟨[("l", Val.list (some 0))], [Node.mk (Val.int 5) none]⟩ 1 1
      = (⟨envSet [("l", Val.list (some 0))] "t" (Val.list none),
          [Node.mk (Val.int 5) none]⟩, Except.ok (1 + 1)) :=
  ⟨C6_tail_head.1 ⟨[("l", Val.list none)], []⟩ "l" "t" 1 1 1 (by rfl),
   C6_tail_head.2.2.1 ⟨[("l", Val.list none)], []⟩ "l" "h2" 1 1 1 (by rfl),
   (C6_tail_head.2.1 ⟨[("l", Val.list (some 0))], [Node.mk (Val.int 5) none]⟩
     "l" "t" 1 1 1 0 (Node.mk (Val.int 5) none) (by rfl) (by rfl)
     (by rfl)).1⟩

/-- C1: `MERGE src dst` deep-copies the value bound to `src` at the moment
of execution and prepends it as a new head node whose `next` is literally
`dst`'s old chain (the old chain is shared, its nodes untouched); the
copied value denotes `src`'s value at that moment, and a later mutation of
`src` (an `ASSIGN`) changes neither the heap nor any other binding, so it
never changes an element already merged.  The scenario program yields
`a = 2`, `l = [2, 1]`. -/
theorem C1_merge_deep_copy_and_sharing (s : State) (src dst : String)
    (ln : Nat) (pc : Int) (len : Nat) (vsrc : Val) (h : Option Nat)
    (hs : envGet s.env src = some vsrc)
    (hd : envGet s.env dst = some (Val.list h))
    (hwf : heapWF s.heap) (hv : valHLT vsrc s.heap.length)
    (hh : hLT h s.heap.length) :
    execute ⟨ln, Op.MERGE src dst⟩ s pc len
      = (⟨envSet s.env dst
            (Val.list (some (deepCopyVal s.heap.length s.heap vsrc).1.length)),
          (deepCopyVal s.heap.length s.heap vsrc).1
            ++ [Node.mk (deepCopyVal s.heap.length s.heap vsrc).2 h]⟩,
         Except.ok (pc + 1))
    ∧ (∀ j, j < s.heap.length →
        ((deepCopyVal s.heap.length s.heap vsrc).1
          ++ [Node.mk (deepCopyVal s.heap.length s.heap vsrc).2 h])[j]?
          = s.heap[j]?)
    ∧ valP ((deepCopyVal s.heap.length s.heap vsrc).1
          ++ [Node.mk (deepCopyVal s.heap.length s.heap vsrc).2 h]).length
        ((deepCopyVal s.heap.length s.heap vsrc).1
          ++ [Node.mk (deepCopyVal s.heap.length s.heap vsrc).2 h])
        (deepCopyVal s.heap.length s.heap vsrc).2
      = valP s.heap.length s.heap vsrc
    ∧ runSource ["LIST l", "INTEGER a", "ASSIGN a 1", "MERGE a l",
        "ASSIGN a 2", "MERGE a l", "HLT"] 20
      = some (["a = 2", "l = [2, 1]"], [])
    ∧ (∀ (s2 : State) (a lvar : String) (k : Int) (ln2 : Nat) (pc2 : Int)
        (len2 : Nat), a ≠ lvar →
        (execute ⟨ln2, Op.ASSIGN a k⟩ s2 pc2 len2).1.heap = s2.heap
        ∧ envGet (execute ⟨ln2, Op.ASSIGN a k⟩ s2 pc2 len2).1.env lvar
            = envGet s2.env lvar) := by
  obtain ⟨hpre, hwf', hvh', hpur⟩ := deepCopyVal_spec s.heap vsrc hwf hv
  refine ⟨?_, ?_, ?_, by rfl, ?_⟩
  · simp [execute, hs, hd]
  · intro j hj
    have hpre2 : s.heap <+:
        ((deepCopyVal s.heap.length s.heap vsrc).1
          ++ [Node.mk (deepCopyVal s.heap.length s.heap vsrc).2 h]) :=
      hpre.trans ⟨[Node.mk (deepCopyVal s.heap.length s.heap vsrc).2 h], rfl⟩
    exact prefix_getElem? hpre2 hj
  · have hlen : (deepCopyVal s.heap.length s.heap vsrc).1.length
        ≤ ((deepCopyVal s.heap.length s.heap vsrc).1
            ++ [Node.mk (deepCopyVal s.heap.length s.heap vsrc).2 h]).length := by
      simp
    rw [valP_stable ⟨[Node.mk (deepCopyVal s.heap.length s.heap vsrc).2 h], rfl⟩
      hwf' hvh' hlen (le_refl _)]
    exact hpur
  · intro s2 a lvar k ln2 pc2 len2 halv
    simp only [execute]
    cases hga : envGet s2.env a with
    | none => exact ⟨rfl, envGet_envSet_ne s2.env a lvar _ (Ne.symm halv)⟩
    | some va =>
      cases va with
      | int x => exact ⟨rfl, envGet_envSet_ne s2.env a lvar _ (Ne.symm halv)⟩
      | list h2 => exact ⟨rfl, rfl⟩

theorem C1_merge_witness :
    execute ⟨4, Op.MERGE "a" "l"⟩ ⟨[("a", Val.int 1), ("l", Val.list none)], []⟩ 4 7
      = (⟨envSet [("a", Val.int 1), ("l", Val.list none)] "l"
            (Val.list (some (deepCopyVal 0 [] (Val.int 1)).1.length)),
          (deepCopyVal 0 [] (Val.int 1)).1
            ++ [Node.mk (deepCopyVal 0 [] (Val.int 1)).2 none]⟩,
         Except.ok (4 + 1)) :=
  (C1_merge_deep_copy_and_sharing
    ⟨[("a", Val.int 1), ("l", Val.list none)], []⟩ "a" "l" 4 4 7
    (Val.int 1) none (by rfl) (by rfl) heapWF_nil trivial trivial).1

end PPL
